import Mathlib

/-!
Verification development for the `colourado_iterator` crate: an infinite
HSV-based color-palette generator with HSV↔RGB conversion and hex export.

The floating-point (`f32`) arithmetic of the source is modelled exactly over
`ℚ`: Rust's float remainder `a % b` (truncated remainder, sign of the
dividend) becomes `fmod`, and `.round()` (half away from zero) becomes
`qround`.  The transcendental functions `sin`, `cos`, `tan` are not exactly
computable, so they are abstracted as a `TrigModel` parameter; theorems that
need the analytic bounds `|sin x| ≤ 1`, `|cos x| ≤ 1` take them as the
hypothesis `TrigModel.Bounded`.
-/

/-- Truncation toward zero on `ℚ`, the rounding used by Rust's float `%`. -/
def qtrunc (x : ℚ) : ℤ := if 0 ≤ x then ⌊x⌋ else ⌈x⌉

/-- Rust's floating-point remainder `a % b`: `a - b * trunc (a / b)`. -/
def fmod (a b : ℚ) : ℚ := a - b * (qtrunc (a / b) : ℚ)

/-- Rust's `f32::round`: round half away from zero. -/
def qround (x : ℚ) : ℤ := if 0 ≤ x then ⌊x + 1/2⌋ else ⌈x - 1/2⌉

/-- An HSV triple `(hue, saturation, value)` (`type Hsv` in `lib.rs`). -/
abbrev Hsv := ℚ × ℚ × ℚ

/-- The three RGB channels of `struct Color` in `color.rs`, each an `f32`
modelled as a rational. -/
structure Color where
  red : ℚ
  green : ℚ
  blue : ℚ
deriving DecidableEq, Repr

/-- `Color::to_tuple`. -/
def Color.to_tuple (c : Color) : ℚ × ℚ × ℚ := (c.red, c.green, c.blue)

/-- `Color::hsv_to_rgb`: the chroma/sector HSV→RGB conversion, with the
six half-open 60°-sectors of the `match` on `hue2` and the defensive
`(0,0,0)` fallback. -/
def Color.hsv_to_rgb (hue saturation value : ℚ) : Color :=
  let chroma := value * saturation
  let hue2 := hue / 60
  let tmp := chroma * (1 - |fmod hue2 2 - 1|)
  let color2 : ℚ × ℚ × ℚ :=
    if 0 ≤ hue2 ∧ hue2 < 1 then (chroma, tmp, 0)
    else if 1 ≤ hue2 ∧ hue2 < 2 then (tmp, chroma, 0)
    else if 2 ≤ hue2 ∧ hue2 < 3 then (0, chroma, tmp)
    else if 3 ≤ hue2 ∧ hue2 < 4 then (0, tmp, chroma)
    else if 4 ≤ hue2 ∧ hue2 < 5 then (tmp, 0, chroma)
    else if 5 ≤ hue2 ∧ hue2 < 6 then (chroma, 0, tmp)
    else (0, 0, 0)
  let m := value - chroma
  ⟨color2.1 + m, color2.2.1 + m, color2.2.2 + m⟩

/-- The value of the mutable `cmax` in `Color::to_hsv` after the `g` step of
the pairwise if-tree. -/
def Color.cmax1 (c : Color) : ℚ := if c.green > c.red then c.green else c.red

/-- The value of the mutable `cmin` in `Color::to_hsv` after the `g` step:
`cmin` is only lowered in the `else if g < cmin` branch. -/
def Color.cmin1 (c : Color) : ℚ :=
  if c.green > c.red then c.red else if c.green < c.red then c.green else c.red

/-- The final `cmax` of `Color::to_hsv`, after the `b` step. -/
def Color.cmax (c : Color) : ℚ := if c.blue > c.cmax1 then c.blue else c.cmax1

/-- The final `cmin` of `Color::to_hsv`, after the `b` step. -/
def Color.cmin (c : Color) : ℚ :=
  if c.blue > c.cmax1 then c.cmin1
  else if c.blue < c.cmin1 then c.blue else c.cmin1

/-- `delta = cmax - cmin` in `Color::to_hsv`: the divisor of every hue
branch.  In the achromatic case it is `0`, so the `f32` source divides by
zero there. -/
def Color.delta (c : Color) : ℚ := c.cmax - c.cmin

/-- `Color::to_hsv`: RGB→HSV with the branch-on-maximal-channel hue formula
and saturation `delta / cmax` (forced to `0` when `cmax = 0`). -/
def Color.to_hsv (c : Color) : Hsv :=
  let hue :=
    if c.cmax = c.red then 60 * fmod ((c.green - c.blue) / c.delta) 6
    else if c.cmax = c.green then 60 * ((c.blue - c.red) / c.delta + 2)
    else 60 * ((c.red - c.green) / c.delta + 4)
  let saturation := if c.cmax = 0 then 0 else c.delta / c.cmax
  (hue, saturation, c.cmax)

/-- One uppercase hexadecimal digit. -/
def hexDigit (n : ℕ) : Char :=
  if n < 10 then Char.ofNat (48 + n) else Char.ofNat (55 + n)

/-- Rust's `{:02X}` on a channel byte: two-digit uppercase hex (all channel
bytes of this crate are < 256). -/
def byteHex (n : ℕ) : String :=
  String.mk [hexDigit (n / 16 % 16), hexDigit (n % 16)]

/-- The `(ch * 255.0).round() as u32` of `Color::to_hex` (`as u32`
saturates negatives to 0, as `Int.toNat` does). -/
def channelByte (x : ℚ) : ℕ := (qround (x * 255)).toNat

/-- `Color::to_hex`: `#RRGGBB`, each channel scaled to 0–255, rounded,
uppercase hex. -/
def Color.to_hex (c : Color) : String :=
  "#" ++ byteHex (channelByte c.red) ++ byteHex (channelByte c.green)
      ++ byteHex (channelByte c.blue)

/-- `enum PaletteType` in `lib.rs`. -/
inductive PaletteType where
  | Random
  | Pastel
  | Dark
deriving DecidableEq, Repr

/-- `struct HsvPalette`: the mutable generator state. -/
structure HsvPalette where
  iteration : ℕ
  base_divergence : ℚ
  palette_type : PaletteType
  hue : ℚ
deriving DecidableEq, Repr

/-- `struct ColorPalette(HsvPalette)`: the RGB-emitting wrapper. -/
structure ColorPalette where
  inner : HsvPalette
deriving DecidableEq, Repr

/-- The transcendental functions of `f32`, abstracted: exact `sin`/`cos`/
`tan` are not computable on `ℚ`, so the palette formulas are parametrised
over them. -/
structure TrigModel where
  sin : ℚ → ℚ
  cos : ℚ → ℚ
  tan : ℚ → ℚ

/-- The analytic facts about `sin`/`cos` that the bound proofs use. -/
def TrigModel.Bounded (T : TrigModel) : Prop :=
  (∀ x, |T.sin x| ≤ 1) ∧ (∀ x, |T.cos x| ≤ 1)

/-- A trivial trig model (everything `0`), used to instantiate hypotheses
on concrete inputs. -/
def trigZero : TrigModel := ⟨fun _ => 0, fun _ => 0, fun _ => 0⟩

/-- The `if div < 15.0 { div = 15.0 }` floor applied to `base_divergence`
at the start of each palette formula. -/
def divergenceFloor (d : ℚ) : ℚ := if d < 15 then 15 else d

/-- `HsvPalette::palette_dark`. -/
def HsvPalette.palette_dark (T : TrigModel) (s : HsvPalette) : Hsv :=
  let iteration : ℚ := (s.iteration : ℚ)
  let f := |T.cos (iteration * 43)|
  let div := divergenceFloor s.base_divergence
  let hue := fmod (|s.hue + div + f|) 360
  let saturation := 0.32 + |T.sin (iteration * 0.75) / 2|
  let value := 0.1 + |T.cos iteration / 6|
  (hue, saturation, value)

/-- `HsvPalette::palette_pastel`. -/
def HsvPalette.palette_pastel (T : TrigModel) (s : HsvPalette) : Hsv :=
  let iteration : ℚ := (s.iteration : ℚ)
  let f := |T.cos (iteration * 25)|
  let div := divergenceFloor s.base_divergence
  let hue := fmod (|s.hue + div + f|) 360
  let saturation := |T.cos (iteration * 0.35) / 5|
  let value := 0.5 + |T.cos iteration / 2|
  (hue, saturation, value)

/-- `HsvPalette::palette_random`, with the saturation floor `0.4` and the
value clamp into `[0.2, 0.85]`. -/
def HsvPalette.palette_random (T : TrigModel) (s : HsvPalette) : Hsv :=
  let iteration : ℚ := (s.iteration : ℚ)
  let f := |T.tan (iteration * 55)|
  let div := divergenceFloor s.base_divergence
  let hue := fmod (|s.hue + div + f|) 360
  let saturation0 := |T.sin (iteration * 0.35)|
  let value0 := |T.cos ((6.33 * iteration) * 0.5)|
  let saturation := if saturation0 < 0.4 then 0.4 else saturation0
  let value := if value0 < 0.2 then 0.2 else if value0 > 0.85 then 0.85 else value0
  (hue, saturation, value)

/-- `HsvPalette::get`: dispatch on the palette type. -/
def HsvPalette.get (T : TrigModel) (s : HsvPalette) : Hsv :=
  match s.palette_type with
  | PaletteType.Random => s.palette_random T
  | PaletteType.Pastel => s.palette_pastel T
  | PaletteType.Dark => s.palette_dark T

/-- The mode's non-negative perturbation `f` added into the hue update
(the `f` local of each palette formula). -/
def HsvPalette.perturbation (T : TrigModel) (s : HsvPalette) : ℚ :=
  match s.palette_type with
  | PaletteType.Random => |T.tan ((s.iteration : ℚ) * 55)|
  | PaletteType.Pastel => |T.cos ((s.iteration : ℚ) * 25)|
  | PaletteType.Dark => |T.cos ((s.iteration : ℚ) * 43)|

/-- `<HsvPalette as Iterator>::next`: emit `get`, store the new hue,
increment `iteration`, always `Some`.  State passing is explicit: the
result pairs the emitted item with the updated state. -/
def HsvPalette.next (T : TrigModel) (s : HsvPalette) :
    Option (Hsv × HsvPalette) :=
  let hsv := s.get T
  some (hsv, ⟨s.iteration + 1, s.base_divergence, s.palette_type, hsv.1⟩)

/-- The state after one `next` call (the `next` above always succeeds). -/
def HsvPalette.step (T : TrigModel) (s : HsvPalette) : HsvPalette :=
  match s.next T with
  | some (_, s2) => s2
  | none => s

/-- The state after `n` `next` calls. -/
def HsvPalette.iterState (T : TrigModel) (s : HsvPalette) : ℕ → HsvPalette
  | 0 => s
  | n + 1 => HsvPalette.iterState T (s.step T) n

/-- The `n`-th HSV triple (0-indexed) emitted by repeated `next` calls. -/
def HsvPalette.nthHsv (T : TrigModel) (s : HsvPalette) (n : ℕ) : Hsv :=
  (s.iterState T n).get T

/-- `ColorPalette::new`: random starting hue supplied as the value the rng
draw produced; `base_divergence` 80.0, or 25.0 when `adjacent_colors`. -/
def ColorPalette.new (palette_type : PaletteType) (adjacent_colors : Bool)
    (hue : ℚ) : ColorPalette :=
  let base_divergence : ℚ := if adjacent_colors then 25 else 80
  ⟨⟨0, base_divergence, palette_type, hue⟩⟩

/-- `<ColorPalette as Iterator>::next`: convert the inner HSV emission to
RGB; `None` only if the inner iterator yields `None`. -/
def ColorPalette.next (T : TrigModel) (p : ColorPalette) :
    Option (Color × ColorPalette) :=
  match p.inner.next T with
  | some x => some (Color.hsv_to_rgb x.1.1 x.1.2.1 x.1.2.2, ⟨x.2⟩)
  | none => none

/-- The `n`-th `Color` (0-indexed) emitted by `ColorPalette::next`. -/
def ColorPalette.nthColor (T : TrigModel) (p : ColorPalette) (n : ℕ) : Color :=
  let hsv := p.inner.nthHsv T n
  Color.hsv_to_rgb hsv.1 hsv.2.1 hsv.2.2

/-- `Iterator::take(n)` materialised: pull until `n` items or exhaustion. -/
def ColorPalette.takeN (T : TrigModel) : ℕ → ColorPalette → List Color
  | 0, _ => []
  | n + 1, p =>
    match p.next T with
    | some (c, p2) => c :: ColorPalette.takeN T n p2
    | none => []

lemma qtrunc_of_nonneg (x : ℚ) (hx : 0 ≤ x) : qtrunc x = ⌊x⌋ := if_pos hx

lemma qtrunc_neg_eq (x : ℚ) : qtrunc (-x) = -qtrunc x := by
  rcases lt_trichotomy x 0 with h | h | h
  · rw [qtrunc, qtrunc, if_pos (by linarith : (0:ℚ) ≤ -x),
      if_neg (by linarith : ¬ (0:ℚ) ≤ x), Int.floor_neg]
  · subst h; simp [qtrunc]
  · rw [qtrunc, qtrunc, if_neg (by linarith : ¬ (0:ℚ) ≤ -x),
      if_pos (by linarith : (0:ℚ) ≤ x), Int.ceil_neg]

lemma fmod_nonneg_bounds (a m : ℚ) (hm : 0 < m) (ha : 0 ≤ a) :
    0 ≤ fmod a m ∧ fmod a m < m := by
  rw [fmod, qtrunc_of_nonneg _ (by positivity)]
  have hfl : (⌊a / m⌋ : ℚ) ≤ a / m := Int.floor_le _
  have hfu : a / m < ⌊a / m⌋ + 1 := Int.lt_floor_add_one _
  have hme : m * (a / m) = a := by field_simp
  constructor
  · nlinarith [mul_le_mul_of_nonneg_left hfl hm.le]
  · nlinarith [mul_lt_mul_of_pos_left hfu hm]

lemma fmod_self_eq (a m : ℚ) (hm : 0 < m) (h0 : 0 ≤ a) (h1 : a < m) :
    fmod a m = a := by
  rw [fmod, qtrunc_of_nonneg _ (by positivity)]
  have hz : ⌊a / m⌋ = 0 := by
    rw [Int.floor_eq_zero_iff]
    exact ⟨by positivity, by rwa [div_lt_one hm]⟩
  rw [hz]
  push_cast
  ring

lemma fmod_neg_self_eq (a m : ℚ) (hm : 0 < m) (h0 : -m < a) (h1 : a < 0) :
    fmod a m = a := by
  have hdn : a / m < 0 := div_neg_of_neg_of_pos h1 hm
  have hq : qtrunc (a / m) = 0 := by
    rw [qtrunc, if_neg (by linarith)]
    rw [Int.ceil_eq_zero_iff]
    constructor
    · show (-1 : ℚ) < a / m
      rw [lt_div_iff₀ hm]
      linarith
    · exact hdn.le
  rw [fmod, hq]
  push_cast
  ring

lemma fmod_neg (a m : ℚ) : fmod (-a) m = -fmod a m := by
  rw [fmod, fmod, neg_div, qtrunc_neg_eq]
  push_cast
  ring

lemma abs_fmod (a m : ℚ) (hm : 0 < m) : |fmod a m| = fmod |a| m := by
  rcases le_or_lt 0 a with h | h
  · rw [abs_of_nonneg h, abs_of_nonneg (fmod_nonneg_bounds a m hm h).1]
  · have h1 : 0 ≤ fmod (-a) m := (fmod_nonneg_bounds (-a) m hm (by linarith)).1
    have e : fmod a m = -(fmod (-a) m) := by rw [fmod_neg]; ring
    rw [e, abs_neg, abs_of_nonneg h1, abs_of_neg h]

lemma fmod_sub_eq (a m : ℚ) (k : ℕ) (hm : 0 < m) (h0 : m * k ≤ a)
    (h1 : a < m * (k + 1)) : fmod a m = a - m * k := by
  have hk : (0:ℚ) ≤ m * k := by positivity
  have ha : (0:ℚ) ≤ a := le_trans hk h0
  rw [fmod, qtrunc_of_nonneg _ (div_nonneg ha hm.le)]
  have hz : ⌊a / m⌋ = (k : ℤ) := by
    rw [Int.floor_eq_iff]
    constructor
    · push_cast
      rw [le_div_iff₀ hm]
      linarith
    · push_cast
      rw [div_lt_iff₀ hm]
      linarith
  rw [hz]
  push_cast
  ring

@[simp] lemma Color.red_mk (r g b : ℚ) : (Color.mk r g b).red = r := rfl

@[simp] lemma Color.green_mk (r g b : ℚ) : (Color.mk r g b).green = g := rfl

@[simp] lemma Color.blue_mk (r g b : ℚ) : (Color.mk r g b).blue = b := rfl

lemma get_hue_eq (T : TrigModel) (s : HsvPalette) :
    (s.get T).1 =
      fmod (|s.hue + divergenceFloor s.base_divergence + s.perturbation T|) 360 := by
  rcases s with ⟨i, d, pt, h⟩
  cases pt <;>
    simp [HsvPalette.get, HsvPalette.perturbation, HsvPalette.palette_random,
      HsvPalette.palette_pastel, HsvPalette.palette_dark]

lemma takeN_length (T : TrigModel) (n : ℕ) :
    ∀ p : ColorPalette, (ColorPalette.takeN T n p).length = n := by
  induction n with
  | zero => intro p; rfl
  | succ k ih =>
    intro p
    rw [ColorPalette.takeN]
    simp [ColorPalette.next, HsvPalette.next, ih]

/-- C3: on every call to the generator's step, in every mode, the hue that
is stored back into the state and emitted equals
`(current_hue + div + f) mod 360` then `abs()`-guarded, where `div` is the
effective divergence and `f` the mode's non-negative perturbation; hence
every emitted hue lies in `[0, 360)`. -/
theorem hue_update_formula (T : TrigModel) (s : HsvPalette) :
    (s.get T).1 =
      |fmod (s.hue + divergenceFloor s.base_divergence + s.perturbation T) 360| ∧
    (s.step T).hue = (s.get T).1 ∧
    0 ≤ (s.get T).1 ∧ (s.get T).1 < 360 := by
  have h := get_hue_eq T s
  have habs := abs_fmod (s.hue + divergenceFloor s.base_divergence +
    s.perturbation T) 360 (by norm_num)
  have hb := fmod_nonneg_bounds
    (|s.hue + divergenceFloor s.base_divergence + s.perturbation T|) 360
    (by norm_num) (abs_nonneg _)
  refine ⟨by rw [h, habs], rfl, ?_, ?_⟩
  · rw [h]; exact hb.1
  · rw [h]; exact hb.2

/-- C9: for every `base_divergence` (including values below 15), the
effective divergence entering the hue computation, in every mode, is
`max(base_divergence, 15)`, hence never below 15. -/
theorem divergence_floor_eff :
    (∀ d : ℚ, divergenceFloor d = max d 15 ∧ 15 ≤ divergenceFloor d) ∧
    (∀ (T : TrigModel) (s : HsvPalette),
      (s.get T).1 = fmod (|s.hue + max s.base_divergence 15 + s.perturbation T|) 360) := by
  have hmax : ∀ d : ℚ, divergenceFloor d = max d 15 := by
    intro d
    rw [divergenceFloor]
    split_ifs with h
    · exact (max_eq_right h.le).symm
    · exact (max_eq_left (not_lt.mp h)).symm
  refine ⟨fun d => ⟨hmax d, ?_⟩, fun T s => ?_⟩
  · rw [hmax d]; exact le_max_right _ _
  · rw [get_hue_eq, hmax]

/-- C8: every step mutates only `hue` and `iteration`: `base_divergence`
and `palette_type` are unchanged, `iteration` increases by exactly 1, and
`hue` is overwritten with the emitted hue. -/
theorem step_frame (T : TrigModel) (s : HsvPalette) :
    (s.step T).base_divergence = s.base_divergence ∧
    (s.step T).palette_type = s.palette_type ∧
    (s.step T).iteration = s.iteration + 1 ∧
    (s.step T).hue = (s.get T).1 :=
  ⟨rfl, rfl, rfl, rfl⟩

/-- C4: two generators whose states agree on every field emit element-wise
identical HSV sequences, and hence identical `Color` sequences. -/
theorem deterministic_sequences (T : TrigModel) (s1 s2 : HsvPalette)
    (hi : s1.iteration = s2.iteration)
    (hd : s1.base_divergence = s2.base_divergence)
    (hp : s1.palette_type = s2.palette_type)
    (hh : s1.hue = s2.hue) (n : ℕ) :
    s1.nthHsv T n = s2.nthHsv T n ∧
    ColorPalette.nthColor T ⟨s1⟩ n = ColorPalette.nthColor T ⟨s2⟩ n := by
  have he : s1 = s2 := by
    rcases s1 with ⟨a1, b1, c1, d1⟩
    rcases s2 with ⟨a2, b2, c2, d2⟩
    simp_all
  rw [he]
  exact ⟨rfl, rfl⟩

/-- Witness for `deterministic_sequences` at a concrete state and index. -/
theorem deterministic_sequences_witness :
    HsvPalette.iteration ⟨0, 80, PaletteType.Dark, 10⟩ =
      HsvPalette.iteration ⟨0, 80, PaletteType.Dark, 10⟩ ∧
    HsvPalette.base_divergence ⟨0, 80, PaletteType.Dark, 10⟩ =
      HsvPalette.base_divergence ⟨0, 80, PaletteType.Dark, 10⟩ ∧
    HsvPalette.palette_type ⟨0, 80, PaletteType.Dark, 10⟩ =
      HsvPalette.palette_type ⟨0, 80, PaletteType.Dark, 10⟩ ∧
    HsvPalette.hue ⟨0, 80, PaletteType.Dark, 10⟩ =
      HsvPalette.hue ⟨0, 80, PaletteType.Dark, 10⟩ ∧
    (HsvPalette.nthHsv trigZero ⟨0, 80, PaletteType.Dark, 10⟩ 2 =
      HsvPalette.nthHsv trigZero ⟨0, 80, PaletteType.Dark, 10⟩ 2 ∧
    ColorPalette.nthColor trigZero ⟨⟨0, 80, PaletteType.Dark, 10⟩⟩ 2 =
      ColorPalette.nthColor trigZero ⟨⟨0, 80, PaletteType.Dark, 10⟩⟩ 2) :=
  ⟨rfl, rfl, rfl, rfl,
    deterministic_sequences trigZero ⟨0, 80, PaletteType.Dark, 10⟩
      ⟨0, 80, PaletteType.Dark, 10⟩ rfl rfl rfl rfl 2⟩

/-- C5: the iterator never signals exhaustion: `HsvPalette::next` and
`ColorPalette::next` always return `Some`, and taking `N` colors from any
generator yields exactly `N` colors, for every finite `N`. -/
theorem never_exhausted (T : TrigModel) (s : HsvPalette) (p : ColorPalette)
    (n : ℕ) :
    (s.next T).isSome = true ∧ (p.next T).isSome = true ∧
    (ColorPalette.takeN T n p).length = n :=
  ⟨rfl, rfl, takeN_length T n p⟩

/-- C6: for every achromatic color (`red = green = blue`), `to_hsv` returns
saturation exactly 0, and the divisor `delta` of the executed hue formula
is 0, so the `f32` source divides by zero there and the hue is not a
finite defined angle. -/
theorem achromatic_sat_zero (c : Color) (h1 : c.red = c.green)
    (h2 : c.green = c.blue) :
    (c.to_hsv).2.1 = 0 ∧ c.delta = 0 := by
  rcases c with ⟨r, g, b⟩
  simp only [Color.red_mk, Color.green_mk, Color.blue_mk] at h1 h2
  subst h1
  subst h2
  have hd : Color.delta ⟨r, r, r⟩ = 0 := by
    simp [Color.delta, Color.cmax, Color.cmin, Color.cmax1, Color.cmin1]
  refine ⟨?_, hd⟩
  show (if Color.cmax ⟨r, r, r⟩ = 0 then (0:ℚ)
    else Color.delta ⟨r, r, r⟩ / Color.cmax ⟨r, r, r⟩) = 0
  split_ifs <;> simp [hd]

/-- Witness for `achromatic_sat_zero` at the concrete gray `(1/2,1/2,1/2)`. -/
theorem achromatic_sat_zero_witness :
    Color.red ⟨1/2, 1/2, 1/2⟩ = Color.green ⟨1/2, 1/2, 1/2⟩ ∧
    Color.green ⟨1/2, 1/2, 1/2⟩ = Color.blue ⟨1/2, 1/2, 1/2⟩ ∧
    ((Color.to_hsv ⟨1/2, 1/2, 1/2⟩).2.1 = 0 ∧ Color.delta ⟨1/2, 1/2, 1/2⟩ = 0) :=
  ⟨rfl, rfl, achromatic_sat_zero ⟨1/2, 1/2, 1/2⟩ rfl rfl⟩

/-- C7: the hex export is exact on the five specified inputs. -/
theorem hex_exact :
    (Color.hsv_to_rgb 0 0 1).to_hex = "#FFFFFF" ∧
    (Color.hsv_to_rgb 0 0 0).to_hex = "#000000" ∧
    (Color.hsv_to_rgb 0 1 1).to_hex = "#FF0000" ∧
    (Color.hsv_to_rgb (0.482 * 360) 0.714 0.878).to_hex = "#40E0CF" ∧
    (Color.hsv_to_rgb (0.051 * 360) 0.718 0.627).to_hex = "#A0502D" := by
  refine ⟨?_, ?_, ?_, ?_, ?_⟩
  · have e : Color.hsv_to_rgb 0 0 1 = ⟨1, 1, 1⟩ := by
      norm_num [Color.hsv_to_rgb, fmod, qtrunc]
    rw [e, Color.to_hex]
    simp only [Color.red_mk, Color.green_mk, Color.blue_mk]
    have h1 : channelByte 1 = 255 := by norm_num [channelByte, qround] <;> decide
    rw [h1]
    decide
  · have e : Color.hsv_to_rgb 0 0 0 = ⟨0, 0, 0⟩ := by
      norm_num [Color.hsv_to_rgb, fmod, qtrunc]
    rw [e, Color.to_hex]
    simp only [Color.red_mk, Color.green_mk, Color.blue_mk]
    have h1 : channelByte 0 = 0 := by norm_num [channelByte, qround]
    rw [h1]
    decide
  · have e : Color.hsv_to_rgb 0 1 1 = ⟨1, 0, 0⟩ := by
      norm_num [Color.hsv_to_rgb, fmod, qtrunc]
    rw [e, Color.to_hex]
    simp only [Color.red_mk, Color.green_mk, Color.blue_mk]
    have h1 : channelByte 1 = 255 := by norm_num [channelByte, qround] <;> decide
    have h0 : channelByte 0 = 0 := by norm_num [channelByte, qround]
    rw [h1, h0]
    decide
  · have e : Color.hsv_to_rgb (0.482 * 360) 0.714 0.878 =
        ⟨62777/250000, 439/500, 50643479/62500000⟩ := by
      norm_num [Color.hsv_to_rgb, fmod, qtrunc]
      rw [abs_of_nonneg (by norm_num : (0:ℚ) ≤ 27/250)]
      norm_num
    rw [e, Color.to_hex]
    simp only [Color.red_mk, Color.green_mk, Color.blue_mk]
    have h1 : channelByte (62777/250000) = 64 := by
      norm_num [channelByte, qround] <;> decide
    have h2 : channelByte (439/500) = 224 := by
      norm_num [channelByte, qround] <;> decide
    have h3 : channelByte (50643479/62500000) = 207 := by
      norm_num [channelByte, qround] <;> decide
    rw [h1, h2, h3]
    decide
  · have e : Color.hsv_to_rgb (0.051 * 360) 0.718 0.627 =
        ⟨627/1000, 78642729/250000000, 88407/500000⟩ := by
      norm_num [Color.hsv_to_rgb, fmod, qtrunc]
      rw [abs_of_nonneg (by norm_num : (0:ℚ) ≤ 347/500)]
      norm_num
    rw [e, Color.to_hex]
    simp only [Color.red_mk, Color.green_mk, Color.blue_mk]
    have h1 : channelByte (627/1000) = 160 := by
      norm_num [channelByte, qround] <;> decide
    have h2 : channelByte (78642729/250000000) = 80 := by
      norm_num [channelByte, qround] <;> decide
    have h3 : channelByte (88407/500000) = 45 := by
      norm_num [channelByte, qround] <;> decide
    rw [h1, h2, h3]
    decide

/-- Dark-mode saturation and value bounds, shared by several results. -/
lemma dark_sat_value (T : TrigModel) (hT : T.Bounded) (s : HsvPalette) :
    0.32 ≤ (s.palette_dark T).2.1 ∧ (s.palette_dark T).2.1 ≤ 0.82 ∧
    0.1 ≤ (s.palette_dark T).2.2 ∧ (s.palette_dark T).2.2 ≤ 0.1 + 1/6 := by
  obtain ⟨hs, hc⟩ := hT
  have h1 := hs ((s.iteration : ℚ) * 0.75)
  have h2 := hc (s.iteration : ℚ)
  have a1 : |T.sin ((s.iteration : ℚ) * 0.75) / 2| =
      |T.sin ((s.iteration : ℚ) * 0.75)| / 2 := by
    rw [abs_div]; norm_num
  have a2 : |T.cos (s.iteration : ℚ) / 6| = |T.cos (s.iteration : ℚ)| / 6 := by
    rw [abs_div]; norm_num
  have b1 := abs_nonneg (T.sin ((s.iteration : ℚ) * 0.75))
  have b2 := abs_nonneg (T.cos (s.iteration : ℚ))
  refine ⟨?_, ?_, ?_, ?_⟩
  · show (0.32 : ℚ) ≤ 0.32 + |T.sin ((s.iteration : ℚ) * 0.75) / 2|
    rw [a1]; linarith
  · show (0.32 : ℚ) + |T.sin ((s.iteration : ℚ) * 0.75) / 2| ≤ 0.82
    rw [a1]; linarith
  · show (0.1 : ℚ) ≤ 0.1 + |T.cos (s.iteration : ℚ) / 6|
    rw [a2]; linarith
  · show (0.1 : ℚ) + |T.cos (s.iteration : ℚ) / 6| ≤ 0.1 + 1/6
    rw [a2]; linarith

/-- C10: every Dark-mode emission has saturation in `[0.32, 0.82]` and
value in `[0.1, 0.1 + 1/6]`, so the palette's brightness never exceeds
about 0.267 without any explicit clamp. -/
theorem dark_mode_bounds (T : TrigModel) (hT : T.Bounded) (s : HsvPalette) :
    0.32 ≤ (s.palette_dark T).2.1 ∧ (s.palette_dark T).2.1 ≤ 0.82 ∧
    0.1 ≤ (s.palette_dark T).2.2 ∧ (s.palette_dark T).2.2 ≤ 0.1 + 1/6 :=
  dark_sat_value T hT s

/-- The trivial trig model satisfies the analytic bounds. -/
lemma trigZero_bounded : TrigModel.Bounded trigZero :=
  ⟨fun x => by norm_num [trigZero], fun x => by norm_num [trigZero]⟩

/-- Witness for `dark_mode_bounds` at a concrete trig model and state. -/
theorem dark_mode_bounds_witness :
    TrigModel.Bounded trigZero ∧
    (0.32 ≤ (HsvPalette.palette_dark trigZero ⟨0, 80, PaletteType.Dark, 10⟩).2.1 ∧
     (HsvPalette.palette_dark trigZero ⟨0, 80, PaletteType.Dark, 10⟩).2.1 ≤ 0.82 ∧
     0.1 ≤ (HsvPalette.palette_dark trigZero ⟨0, 80, PaletteType.Dark, 10⟩).2.2 ∧
     (HsvPalette.palette_dark trigZero ⟨0, 80, PaletteType.Dark, 10⟩).2.2 ≤ 0.1 + 1/6) :=
  ⟨trigZero_bounded,
    dark_mode_bounds trigZero trigZero_bounded ⟨0, 80, PaletteType.Dark, 10⟩⟩

lemma hsv_to_rgb_channels (h s v : ℚ) (hs0 : 0 ≤ s) (hs1 : s ≤ 1)
    (hv0 : 0 ≤ v) (hv1 : v ≤ 1) :
    (0 ≤ (Color.hsv_to_rgb h s v).red ∧ (Color.hsv_to_rgb h s v).red ≤ 1) ∧
    (0 ≤ (Color.hsv_to_rgb h s v).green ∧ (Color.hsv_to_rgb h s v).green ≤ 1) ∧
    (0 ≤ (Color.hsv_to_rgb h s v).blue ∧ (Color.hsv_to_rgb h s v).blue ≤ 1) := by
  have hc0 : 0 ≤ v * s := mul_nonneg hv0 hs0
  have hc1 : v * s ≤ v := by nlinarith
  have htmp : 0 ≤ h / 60 →
      0 ≤ v * s * (1 - |fmod (h / 60) 2 - 1|) ∧
      v * s * (1 - |fmod (h / 60) 2 - 1|) ≤ v * s := by
    intro hh
    obtain ⟨q0, q2⟩ := fmod_nonneg_bounds (h / 60) 2 (by norm_num) hh
    have habs : |fmod (h / 60) 2 - 1| ≤ 1 := abs_le.mpr ⟨by linarith, by linarith⟩
    have habs0 : 0 ≤ |fmod (h / 60) 2 - 1| := abs_nonneg _
    constructor
    · apply mul_nonneg hc0
      linarith
    · nlinarith
  simp only [Color.hsv_to_rgb]
  split_ifs with h1 h2 h3 h4 h5 h6 <;>
    simp only [Color.red_mk, Color.green_mk, Color.blue_mk]
  · obtain ⟨t0, t1⟩ := htmp h1.1
    exact ⟨⟨by linarith, by linarith⟩, ⟨by linarith, by linarith⟩,
      by linarith, by linarith⟩
  · obtain ⟨t0, t1⟩ := htmp (by linarith [h2.1])
    exact ⟨⟨by linarith, by linarith⟩, ⟨by linarith, by linarith⟩,
      by linarith, by linarith⟩
  · obtain ⟨t0, t1⟩ := htmp (by linarith [h3.1])
    exact ⟨⟨by linarith, by linarith⟩, ⟨by linarith, by linarith⟩,
      by linarith, by linarith⟩
  · obtain ⟨t0, t1⟩ := htmp (by linarith [h4.1])
    exact ⟨⟨by linarith, by linarith⟩, ⟨by linarith, by linarith⟩,
      by linarith, by linarith⟩
  · obtain ⟨t0, t1⟩ := htmp (by linarith [h5.1])
    exact ⟨⟨by linarith, by linarith⟩, ⟨by linarith, by linarith⟩,
      by linarith, by linarith⟩
  · obtain ⟨t0, t1⟩ := htmp (by linarith [h6.1])
    exact ⟨⟨by linarith, by linarith⟩, ⟨by linarith, by linarith⟩,
      by linarith, by linarith⟩
  · exact ⟨⟨by linarith, by linarith⟩, ⟨by linarith, by linarith⟩,
      by linarith, by linarith⟩

lemma random_sat_value (T : TrigModel) (hT : T.Bounded) (s : HsvPalette) :
    0 ≤ (s.palette_random T).2.1 ∧ (s.palette_random T).2.1 ≤ 1 ∧
    0 ≤ (s.palette_random T).2.2 ∧ (s.palette_random T).2.2 ≤ 1 := by
  obtain ⟨hs, hc⟩ := hT
  have h1 := hs ((s.iteration : ℚ) * 0.35)
  have b1 := abs_nonneg (T.sin ((s.iteration : ℚ) * 0.35))
  have b2 := abs_nonneg (T.cos ((6.33 * (s.iteration : ℚ)) * 0.5))
  refine ⟨?_, ?_, ?_, ?_⟩
  · show (0:ℚ) ≤ if |T.sin ((s.iteration : ℚ) * 0.35)| < 0.4 then 0.4
      else |T.sin ((s.iteration : ℚ) * 0.35)|
    split_ifs <;> linarith
  · show (if |T.sin ((s.iteration : ℚ) * 0.35)| < 0.4 then (0.4:ℚ)
      else |T.sin ((s.iteration : ℚ) * 0.35)|) ≤ 1
    split_ifs <;> linarith
  · show (0:ℚ) ≤ if |T.cos ((6.33 * (s.iteration : ℚ)) * 0.5)| < 0.2 then 0.2
      else if |T.cos ((6.33 * (s.iteration : ℚ)) * 0.5)| > 0.85 then 0.85
      else |T.cos ((6.33 * (s.iteration : ℚ)) * 0.5)|
    split_ifs <;> linarith
  · show (if |T.cos ((6.33 * (s.iteration : ℚ)) * 0.5)| < 0.2 then (0.2:ℚ)
      else if |T.cos ((6.33 * (s.iteration : ℚ)) * 0.5)| > 0.85 then 0.85
      else |T.cos ((6.33 * (s.iteration : ℚ)) * 0.5)|) ≤ 1
    split_ifs <;> linarith

lemma pastel_sat_value (T : TrigModel) (hT : T.Bounded) (s : HsvPalette) :
    0 ≤ (s.palette_pastel T).2.1 ∧ (s.palette_pastel T).2.1 ≤ 1 ∧
    0 ≤ (s.palette_pastel T).2.2 ∧ (s.palette_pastel T).2.2 ≤ 1 := by
  obtain ⟨hs, hc⟩ := hT
  have h1 := hc ((s.iteration : ℚ) * 0.35)
  have h2 := hc (s.iteration : ℚ)
  have a1 : |T.cos ((s.iteration : ℚ) * 0.35) / 5| =
      |T.cos ((s.iteration : ℚ) * 0.35)| / 5 := by
    rw [abs_div]; norm_num
  have a2 : |T.cos (s.iteration : ℚ) / 2| = |T.cos (s.iteration : ℚ)| / 2 := by
    rw [abs_div]; norm_num
  have b1 := abs_nonneg (T.cos ((s.iteration : ℚ) * 0.35))
  have b2 := abs_nonneg (T.cos (s.iteration : ℚ))
  refine ⟨?_, ?_, ?_, ?_⟩
  · show (0:ℚ) ≤ |T.cos ((s.iteration : ℚ) * 0.35) / 5|
    exact abs_nonneg _
  · show |T.cos ((s.iteration : ℚ) * 0.35) / 5| ≤ 1
    rw [a1]; linarith
  · show (0:ℚ) ≤ 0.5 + |T.cos (s.iteration : ℚ) / 2|
    have := abs_nonneg (T.cos (s.iteration : ℚ) / 2)
    linarith
  · show (0.5:ℚ) + |T.cos (s.iteration : ℚ) / 2| ≤ 1
    rw [a2]; linarith

lemma get_sat_value_bounds (T : TrigModel) (hT : T.Bounded) (s : HsvPalette) :
    0 ≤ (s.get T).2.1 ∧ (s.get T).2.1 ≤ 1 ∧
    0 ≤ (s.get T).2.2 ∧ (s.get T).2.2 ≤ 1 := by
  cases hp : s.palette_type
  case Random =>
    simp only [HsvPalette.get, hp]
    exact random_sat_value T hT s
  case Pastel =>
    simp only [HsvPalette.get, hp]
    exact pastel_sat_value T hT s
  case Dark =>
    simp only [HsvPalette.get, hp]
    obtain ⟨d1, d2, d3, d4⟩ := dark_sat_value T hT s
    exact ⟨by linarith, by linarith, by linarith, by linarith⟩

/-- C2: for every palette type, adjacency flag, starting hue in `[0,360)`
and position `n`, each RGB channel of the `n`-th color emitted by
`ColorPalette::next` lies in `[0, 1]`. -/
theorem generated_channels_bounded (T : TrigModel) (hT : T.Bounded)
    (pt : PaletteType) (adj : Bool) (h0 : ℚ) (hh0 : 0 ≤ h0) (hh1 : h0 < 360)
    (n : ℕ) :
    0 ≤ (ColorPalette.nthColor T (ColorPalette.new pt adj h0) n).red ∧
    (ColorPalette.nthColor T (ColorPalette.new pt adj h0) n).red ≤ 1 ∧
    0 ≤ (ColorPalette.nthColor T (ColorPalette.new pt adj h0) n).green ∧
    (ColorPalette.nthColor T (ColorPalette.new pt adj h0) n).green ≤ 1 ∧
    0 ≤ (ColorPalette.nthColor T (ColorPalette.new pt adj h0) n).blue ∧
    (ColorPalette.nthColor T (ColorPalette.new pt adj h0) n).blue ≤ 1 := by
  obtain ⟨s0, s1, v0, v1⟩ := get_sat_value_bounds T hT
    ((ColorPalette.new pt adj h0).inner.iterState T n)
  obtain ⟨⟨r0, r1⟩, ⟨g0, g1⟩, b0, b1⟩ := hsv_to_rgb_channels
    (((ColorPalette.new pt adj h0).inner.iterState T n).get T).1
    (((ColorPalette.new pt adj h0).inner.iterState T n).get T).2.1
    (((ColorPalette.new pt adj h0).inner.iterState T n).get T).2.2
    s0 s1 v0 v1
  exact ⟨r0, r1, g0, g1, b0, b1⟩

/-- Witness for `generated_channels_bounded` at a concrete run. -/
theorem generated_channels_bounded_witness :
    TrigModel.Bounded trigZero ∧ (0:ℚ) ≤ 0 ∧ (0:ℚ) < 360 ∧
    (0 ≤ (ColorPalette.nthColor trigZero
        (ColorPalette.new PaletteType.Random false 0) 1).red ∧
     (ColorPalette.nthColor trigZero
        (ColorPalette.new PaletteType.Random false 0) 1).red ≤ 1 ∧
     0 ≤ (ColorPalette.nthColor trigZero
        (ColorPalette.new PaletteType.Random false 0) 1).green ∧
     (ColorPalette.nthColor trigZero
        (ColorPalette.new PaletteType.Random false 0) 1).green ≤ 1 ∧
     0 ≤ (ColorPalette.nthColor trigZero
        (ColorPalette.new PaletteType.Random false 0) 1).blue ∧
     (ColorPalette.nthColor trigZero
        (ColorPalette.new PaletteType.Random false 0) 1).blue ≤ 1) :=
  ⟨trigZero_bounded, by norm_num, by norm_num,
    generated_channels_bounded trigZero trigZero_bounded PaletteType.Random
      false 0 (by norm_num) (by norm_num) 1⟩

lemma to_hsv_def (c : Color) :
    c.to_hsv = (if c.cmax = c.red then 60 * fmod ((c.green - c.blue) / c.delta) 6
      else if c.cmax = c.green then 60 * ((c.blue - c.red) / c.delta + 2)
      else 60 * ((c.red - c.green) / c.delta + 4),
      if c.cmax = 0 then 0 else c.delta / c.cmax, c.cmax) := rfl

lemma rt_sector0 (h s v : ℚ) (h0 : 0 ≤ h) (h1 : h < 60) (hs0 : 0 < s)
    (hs1 : s ≤ 1) (hv0 : 0 < v) (hv1 : v ≤ 1) :
    (Color.hsv_to_rgb h s v).to_hsv = (h, s, v) := by
  have hc : 0 < v * s := mul_pos hv0 hs0
  have hm : 0 ≤ v - v * s := by nlinarith
  have hh2a : 0 ≤ h / 60 := by positivity
  have hh2b : h / 60 < 1 := (div_lt_one (by norm_num)).mpr (by linarith)
  have hfm : fmod (h / 60) 2 = h / 60 :=
    fmod_self_eq _ _ (by norm_num) hh2a (by linarith)
  have e : Color.hsv_to_rgb h s v =
      ⟨v, v * s * (h / 60) + (v - v * s), v - v * s⟩ := by
    simp only [Color.hsv_to_rgb, hfm]
    rw [abs_of_nonpos (by linarith : h / 60 - 1 ≤ 0)]
    rw [if_pos (⟨hh2a, hh2b⟩ : (0:ℚ) ≤ h / 60 ∧ h / 60 < 1)]
    simp only [Color.mk.injEq]
    refine ⟨by ring, by ring, by ring⟩
  have hBA : v * s * (h / 60) + (v - v * s) < v := by nlinarith
  have hCB : v - v * s ≤ v * s * (h / 60) + (v - v * s) := by nlinarith
  have hcmax : Color.cmax ⟨v, v * s * (h / 60) + (v - v * s), v - v * s⟩ = v := by
    simp only [Color.cmax, Color.cmax1, Color.red_mk, Color.green_mk, Color.blue_mk]
    split_ifs <;> linarith
  have hcmin : Color.cmin ⟨v, v * s * (h / 60) + (v - v * s), v - v * s⟩ = v - v * s := by
    simp only [Color.cmin, Color.cmin1, Color.cmax1, Color.red_mk, Color.green_mk,
      Color.blue_mk]
    split_ifs <;> linarith
  have hdelta : Color.delta ⟨v, v * s * (h / 60) + (v - v * s), v - v * s⟩ = v * s := by
    rw [Color.delta, hcmax, hcmin]
    ring
  rw [e, to_hsv_def, hcmax, hdelta]
  simp only [Color.red_mk, Color.green_mk, Color.blue_mk]
  rw [if_pos trivial, if_neg (ne_of_gt hv0)]
  simp only [Prod.mk.injEq]
  refine ⟨?_, ?_, trivial⟩
  · have hq : (v * s * (h / 60) + (v - v * s) - (v - v * s)) / (v * s) = h / 60 := by
      rw [div_eq_iff (ne_of_gt hc)]
      ring
    rw [hq, fmod_self_eq (h / 60) 6 (by norm_num) hh2a (by linarith)]
    rw [mul_div_cancel₀]
    norm_num
  · rw [mul_comm v s, mul_div_assoc, div_self (ne_of_gt hv0), mul_one]

lemma rt_sector1 (h s v : ℚ) (h0 : 60 ≤ h) (h1 : h < 120) (hs0 : 0 < s)
    (hs1 : s ≤ 1) (hv0 : 0 < v) (hv1 : v ≤ 1) :
    (Color.hsv_to_rgb h s v).to_hsv = (h, s, v) := by
  have hc : 0 < v * s := mul_pos hv0 hs0
  have hm : 0 ≤ v - v * s := by nlinarith
  have hh2a : 1 ≤ h / 60 := (le_div_iff₀ (by norm_num : (0:ℚ) < 60)).mpr (by linarith)
  have hh2b : h / 60 < 2 := (div_lt_iff₀ (by norm_num : (0:ℚ) < 60)).mpr (by linarith)
  have hfm : fmod (h / 60) 2 = h / 60 :=
    fmod_self_eq _ _ (by norm_num) (by linarith) hh2b
  have hn1 : ¬((0:ℚ) ≤ h / 60 ∧ h / 60 < 1) := by rintro ⟨_, hx⟩; linarith
  have e : Color.hsv_to_rgb h s v =
      ⟨v * s * (2 - h / 60) + (v - v * s), v, v - v * s⟩ := by
    simp only [Color.hsv_to_rgb, hfm]
    rw [abs_of_nonneg (by linarith : (0:ℚ) ≤ h / 60 - 1)]
    rw [if_neg hn1, if_pos (⟨hh2a, hh2b⟩ : (1:ℚ) ≤ h / 60 ∧ h / 60 < 2)]
    simp only [Color.mk.injEq]
    refine ⟨by ring, by ring, by ring⟩
  have htmp0 : 0 < v * s * (2 - h / 60) := by nlinarith
  have htmp1 : v * s * (2 - h / 60) ≤ v * s := by nlinarith
  have hAB : v * s * (2 - h / 60) + (v - v * s) ≤ v := by nlinarith
  have hCA : v - v * s < v * s * (2 - h / 60) + (v - v * s) := by nlinarith
  have hcmax : Color.cmax ⟨v * s * (2 - h / 60) + (v - v * s), v, v - v * s⟩ = v := by
    simp only [Color.cmax, Color.cmax1, Color.red_mk, Color.green_mk, Color.blue_mk]
    split_ifs <;> linarith
  have hcmin : Color.cmin ⟨v * s * (2 - h / 60) + (v - v * s), v, v - v * s⟩
      = v - v * s := by
    simp only [Color.cmin, Color.cmin1, Color.cmax1, Color.red_mk, Color.green_mk,
      Color.blue_mk]
    split_ifs <;> linarith
  have hdelta : Color.delta ⟨v * s * (2 - h / 60) + (v - v * s), v, v - v * s⟩
      = v * s := by
    rw [Color.delta, hcmax, hcmin]
    ring
  rw [e, to_hsv_def, hcmax, hdelta]
  simp only [Color.red_mk, Color.green_mk, Color.blue_mk]
  rcases eq_or_lt_of_le hh2a with heq | hlt
  · have hh60 : h = 60 := by field_simp at heq; linarith
    have hAv : v = v * s * (2 - h / 60) + (v - v * s) := by rw [← heq]; ring
    rw [if_pos hAv, if_neg (ne_of_gt hv0)]
    simp only [Prod.mk.injEq]
    refine ⟨?_, ?_, trivial⟩
    · have hq : (v - (v - v * s)) / (v * s) = 1 := by
        rw [div_eq_iff (ne_of_gt hc)]
        ring
      rw [hq, fmod_self_eq 1 6 (by norm_num) (by norm_num) (by norm_num), hh60]
      norm_num
    · rw [mul_comm v s, mul_div_assoc, div_self (ne_of_gt hv0), mul_one]
  · have hAv : v * s * (2 - h / 60) + (v - v * s) < v := by nlinarith
    rw [if_neg (ne_of_gt hAv), if_pos trivial, if_neg (ne_of_gt hv0)]
    simp only [Prod.mk.injEq]
    refine ⟨?_, ?_, trivial⟩
    · have hq : (v - v * s - (v * s * (2 - h / 60) + (v - v * s))) / (v * s)
          = h / 60 - 2 := by
        rw [div_eq_iff (ne_of_gt hc)]
        ring
      rw [hq]
      have h2 : h / 60 - 2 + 2 = h / 60 := by ring
      rw [h2, mul_div_cancel₀]
      norm_num
    · rw [mul_comm v s, mul_div_assoc, div_self (ne_of_gt hv0), mul_one]

lemma rt_sector2 (h s v : ℚ) (h0 : 120 ≤ h) (h1 : h < 180) (hs0 : 0 < s)
    (hs1 : s ≤ 1) (hv0 : 0 < v) (hv1 : v ≤ 1) :
    (Color.hsv_to_rgb h s v).to_hsv = (h, s, v) := by
  have hc : 0 < v * s := mul_pos hv0 hs0
  have hm : 0 ≤ v - v * s := by nlinarith
  have hh2a : 2 ≤ h / 60 := (le_div_iff₀ (by norm_num : (0:ℚ) < 60)).mpr (by linarith)
  have hh2b : h / 60 < 3 := (div_lt_iff₀ (by norm_num : (0:ℚ) < 60)).mpr (by linarith)
  have hfm : fmod (h / 60) 2 = h / 60 - 2 := by
    have := fmod_sub_eq (h / 60) 2 1 (by norm_num) (by push_cast; linarith)
      (by push_cast; linarith)
    rw [this]
    push_cast
    ring
  have hn1 : ¬((0:ℚ) ≤ h / 60 ∧ h / 60 < 1) := by rintro ⟨_, hx⟩; linarith
  have hn2 : ¬((1:ℚ) ≤ h / 60 ∧ h / 60 < 2) := by rintro ⟨_, hx⟩; linarith
  have e : Color.hsv_to_rgb h s v =
      ⟨v - v * s, v, v * s * (h / 60 - 2) + (v - v * s)⟩ := by
    simp only [Color.hsv_to_rgb, hfm]
    rw [abs_of_nonpos (by linarith : h / 60 - 2 - 1 ≤ 0)]
    rw [if_neg hn1, if_neg hn2,
      if_pos (⟨hh2a, hh2b⟩ : (2:ℚ) ≤ h / 60 ∧ h / 60 < 3)]
    simp only [Color.mk.injEq]
    refine ⟨by ring, by ring, by ring⟩
  have htmp0 : 0 ≤ v * s * (h / 60 - 2) := by nlinarith
  have htmp1 : v * s * (h / 60 - 2) < v * s := by nlinarith
  have hAB : v - v * s < v := by nlinarith
  have hAC : v - v * s ≤ v * s * (h / 60 - 2) + (v - v * s) := by nlinarith
  have hCB : v * s * (h / 60 - 2) + (v - v * s) < v := by nlinarith
  have hcmax : Color.cmax ⟨v - v * s, v, v * s * (h / 60 - 2) + (v - v * s)⟩ = v := by
    simp only [Color.cmax, Color.cmax1, Color.red_mk, Color.green_mk, Color.blue_mk]
    split_ifs <;> linarith
  have hcmin : Color.cmin ⟨v - v * s, v, v * s * (h / 60 - 2) + (v - v * s)⟩
      = v - v * s := by
    simp only [Color.cmin, Color.cmin1, Color.cmax1, Color.red_mk, Color.green_mk,
      Color.blue_mk]
    split_ifs <;> linarith
  have hdelta : Color.delta ⟨v - v * s, v, v * s * (h / 60 - 2) + (v - v * s)⟩
      = v * s := by
    rw [Color.delta, hcmax, hcmin]
    ring
  rw [e, to_hsv_def, hcmax, hdelta]
  simp only [Color.red_mk, Color.green_mk, Color.blue_mk]
  rw [if_neg (ne_of_gt hAB), if_pos trivial, if_neg (ne_of_gt hv0)]
  simp only [Prod.mk.injEq]
  refine ⟨?_, ?_, trivial⟩
  · have hq : (v * s * (h / 60 - 2) + (v - v * s) - (v - v * s)) / (v * s)
        = h / 60 - 2 := by
      rw [div_eq_iff (ne_of_gt hc)]
      ring
    rw [hq]
    have h2 : h / 60 - 2 + 2 = h / 60 := by ring
    rw [h2, mul_div_cancel₀]
    norm_num
  · rw [mul_comm v s, mul_div_assoc, div_self (ne_of_gt hv0), mul_one]

lemma rt_sector3 (h s v : ℚ) (h0 : 180 ≤ h) (h1 : h < 240) (hs0 : 0 < s)
    (hs1 : s ≤ 1) (hv0 : 0 < v) (hv1 : v ≤ 1) :
    (Color.hsv_to_rgb h s v).to_hsv = (h, s, v) := by
  have hc : 0 < v * s := mul_pos hv0 hs0
  have hm : 0 ≤ v - v * s := by nlinarith
  have hh2a : 3 ≤ h / 60 := (le_div_iff₀ (by norm_num : (0:ℚ) < 60)).mpr (by linarith)
  have hh2b : h / 60 < 4 := (div_lt_iff₀ (by norm_num : (0:ℚ) < 60)).mpr (by linarith)
  have hfm : fmod (h / 60) 2 = h / 60 - 2 := by
    have := fmod_sub_eq (h / 60) 2 1 (by norm_num) (by push_cast; linarith)
      (by push_cast; linarith)
    rw [this]
    push_cast
    ring
  have hn1 : ¬((0:ℚ) ≤ h / 60 ∧ h / 60 < 1) := by rintro ⟨_, hx⟩; linarith
  have hn2 : ¬((1:ℚ) ≤ h / 60 ∧ h / 60 < 2) := by rintro ⟨_, hx⟩; linarith
  have hn3 : ¬((2:ℚ) ≤ h / 60 ∧ h / 60 < 3) := by rintro ⟨_, hx⟩; linarith
  have e : Color.hsv_to_rgb h s v =
      ⟨v - v * s, v * s * (4 - h / 60) + (v - v * s), v⟩ := by
    simp only [Color.hsv_to_rgb, hfm]
    rw [abs_of_nonneg (by linarith : (0:ℚ) ≤ h / 60 - 2 - 1)]
    rw [if_neg hn1, if_neg hn2, if_neg hn3,
      if_pos (⟨hh2a, hh2b⟩ : (3:ℚ) ≤ h / 60 ∧ h / 60 < 4)]
    simp only [Color.mk.injEq]
    refine ⟨by ring, by ring, by ring⟩
  have htmp0 : 0 < v * s * (4 - h / 60) := by nlinarith
  have htmp1 : v * s * (4 - h / 60) ≤ v * s := by nlinarith
  have hAB : v - v * s < v * s * (4 - h / 60) + (v - v * s) := by nlinarith
  have hBC : v * s * (4 - h / 60) + (v - v * s) ≤ v := by nlinarith
  have hAC : v - v * s < v := by nlinarith
  have hcmax : Color.cmax ⟨v - v * s, v * s * (4 - h / 60) + (v - v * s), v⟩ = v := by
    simp only [Color.cmax, Color.cmax1, Color.red_mk, Color.green_mk, Color.blue_mk]
    split_ifs <;> linarith
  have hcmin : Color.cmin ⟨v - v * s, v * s * (4 - h / 60) + (v - v * s), v⟩
      = v - v * s := by
    simp only [Color.cmin, Color.cmin1, Color.cmax1, Color.red_mk, Color.green_mk,
      Color.blue_mk]
    split_ifs <;> linarith
  have hdelta : Color.delta ⟨v - v * s, v * s * (4 - h / 60) + (v - v * s), v⟩
      = v * s := by
    rw [Color.delta, hcmax, hcmin]
    ring
  rw [e, to_hsv_def, hcmax, hdelta]
  simp only [Color.red_mk, Color.green_mk, Color.blue_mk]
  rcases eq_or_lt_of_le hh2a with heq | hlt
  · have hh180 : h = 180 := by field_simp at heq; linarith
    have hBv : v = v * s * (4 - h / 60) + (v - v * s) := by rw [← heq]; ring
    rw [if_neg (ne_of_gt hAC), if_pos hBv, if_neg (ne_of_gt hv0)]
    simp only [Prod.mk.injEq]
    refine ⟨?_, ?_, trivial⟩
    · have hq : (v - (v - v * s)) / (v * s) = 1 := by
        rw [div_eq_iff (ne_of_gt hc)]
        ring
      rw [hq, hh180]
      norm_num
    · rw [mul_comm v s, mul_div_assoc, div_self (ne_of_gt hv0), mul_one]
  · have hBv : v * s * (4 - h / 60) + (v - v * s) < v := by nlinarith
    rw [if_neg (ne_of_gt hAC), if_neg (ne_of_gt hBv), if_neg (ne_of_gt hv0)]
    simp only [Prod.mk.injEq]
    refine ⟨?_, ?_, trivial⟩
    · have hq : (v - v * s - (v * s * (4 - h / 60) + (v - v * s))) / (v * s)
          = h / 60 - 4 := by
        rw [div_eq_iff (ne_of_gt hc)]
        ring
      rw [hq]
      have h2 : h / 60 - 4 + 4 = h / 60 := by ring
      rw [h2, mul_div_cancel₀]
      norm_num
    · rw [mul_comm v s, mul_div_assoc, div_self (ne_of_gt hv0), mul_one]

lemma rt_sector4 (h s v : ℚ) (h0 : 240 ≤ h) (h1 : h < 300) (hs0 : 0 < s)
    (hs1 : s ≤ 1) (hv0 : 0 < v) (hv1 : v ≤ 1) :
    (Color.hsv_to_rgb h s v).to_hsv = (h, s, v) := by
  have hc : 0 < v * s := mul_pos hv0 hs0
  have hm : 0 ≤ v - v * s := by nlinarith
  have hh2a : 4 ≤ h / 60 := (le_div_iff₀ (by norm_num : (0:ℚ) < 60)).mpr (by linarith)
  have hh2b : h / 60 < 5 := (div_lt_iff₀ (by norm_num : (0:ℚ) < 60)).mpr (by linarith)
  have hfm : fmod (h / 60) 2 = h / 60 - 4 := by
    have := fmod_sub_eq (h / 60) 2 2 (by norm_num) (by push_cast; linarith)
      (by push_cast; linarith)
    rw [this]
    push_cast
    ring
  have hn1 : ¬((0:ℚ) ≤ h / 60 ∧ h / 60 < 1) := by rintro ⟨_, hx⟩; linarith
  have hn2 : ¬((1:ℚ) ≤ h / 60 ∧ h / 60 < 2) := by rintro ⟨_, hx⟩; linarith
  have hn3 : ¬((2:ℚ) ≤ h / 60 ∧ h / 60 < 3) := by rintro ⟨_, hx⟩; linarith
  have hn4 : ¬((3:ℚ) ≤ h / 60 ∧ h / 60 < 4) := by rintro ⟨_, hx⟩; linarith
  have e : Color.hsv_to_rgb h s v =
      ⟨v * s * (h / 60 - 4) + (v - v * s), v - v * s, v⟩ := by
    simp only [Color.hsv_to_rgb, hfm]
    rw [abs_of_nonpos (by linarith : h / 60 - 4 - 1 ≤ 0)]
    rw [if_neg hn1, if_neg hn2, if_neg hn3, if_neg hn4,
      if_pos (⟨hh2a, hh2b⟩ : (4:ℚ) ≤ h / 60 ∧ h / 60 < 5)]
    simp only [Color.mk.injEq]
    refine ⟨by ring, by ring, by ring⟩
  have htmp0 : 0 ≤ v * s * (h / 60 - 4) := by nlinarith
  have htmp1 : v * s * (h / 60 - 4) < v * s := by nlinarith
  have hBA : v - v * s ≤ v * s * (h / 60 - 4) + (v - v * s) := by nlinarith
  have hAC : v * s * (h / 60 - 4) + (v - v * s) < v := by nlinarith
  have hBC : v - v * s < v := by nlinarith
  have hcmax : Color.cmax ⟨v * s * (h / 60 - 4) + (v - v * s), v - v * s, v⟩ = v := by
    simp only [Color.cmax, Color.cmax1, Color.red_mk, Color.green_mk, Color.blue_mk]
    split_ifs <;> linarith
  have hcmin : Color.cmin ⟨v * s * (h / 60 - 4) + (v - v * s), v - v * s, v⟩
      = v - v * s := by
    simp only [Color.cmin, Color.cmin1, Color.cmax1, Color.red_mk, Color.green_mk,
      Color.blue_mk]
    split_ifs <;> linarith
  have hdelta : Color.delta ⟨v * s * (h / 60 - 4) + (v - v * s), v - v * s, v⟩
      = v * s := by
    rw [Color.delta, hcmax, hcmin]
    ring
  rw [e, to_hsv_def, hcmax, hdelta]
  simp only [Color.red_mk, Color.green_mk, Color.blue_mk]
  rw [if_neg (ne_of_gt hAC), if_neg (ne_of_gt hBC), if_neg (ne_of_gt hv0)]
  simp only [Prod.mk.injEq]
  refine ⟨?_, ?_, trivial⟩
  · have hq : (v * s * (h / 60 - 4) + (v - v * s) - (v - v * s)) / (v * s)
        = h / 60 - 4 := by
      rw [div_eq_iff (ne_of_gt hc)]
      ring
    rw [hq]
    have h2 : h / 60 - 4 + 4 = h / 60 := by ring
    rw [h2, mul_div_cancel₀]
    norm_num
  · rw [mul_comm v s, mul_div_assoc, div_self (ne_of_gt hv0), mul_one]

lemma rt_sector5 (h s v : ℚ) (h0 : 300 ≤ h) (h1 : h < 360) (hs0 : 0 < s)
    (hs1 : s ≤ 1) (hv0 : 0 < v) (hv1 : v ≤ 1) :
    (Color.hsv_to_rgb h s v).to_hsv = (h - 360, s, v) := by
  have hc : 0 < v * s := mul_pos hv0 hs0
  have hm : 0 ≤ v - v * s := by nlinarith
  have hh2a : 5 ≤ h / 60 := (le_div_iff₀ (by norm_num : (0:ℚ) < 60)).mpr (by linarith)
  have hh2b : h / 60 < 6 := (div_lt_iff₀ (by norm_num : (0:ℚ) < 60)).mpr (by linarith)
  have hfm : fmod (h / 60) 2 = h / 60 - 4 := by
    have := fmod_sub_eq (h / 60) 2 2 (by norm_num) (by push_cast; linarith)
      (by push_cast; linarith)
    rw [this]
    push_cast
    ring
  have hn1 : ¬((0:ℚ) ≤ h / 60 ∧ h / 60 < 1) := by rintro ⟨_, hx⟩; linarith
  have hn2 : ¬((1:ℚ) ≤ h / 60 ∧ h / 60 < 2) := by rintro ⟨_, hx⟩; linarith
  have hn3 : ¬((2:ℚ) ≤ h / 60 ∧ h / 60 < 3) := by rintro ⟨_, hx⟩; linarith
  have hn4 : ¬((3:ℚ) ≤ h / 60 ∧ h / 60 < 4) := by rintro ⟨_, hx⟩; linarith
  have hn5 : ¬((4:ℚ) ≤ h / 60 ∧ h / 60 < 5) := by rintro ⟨_, hx⟩; linarith
  have e : Color.hsv_to_rgb h s v =
      ⟨v, v - v * s, v * s * (6 - h / 60) + (v - v * s)⟩ := by
    simp only [Color.hsv_to_rgb, hfm]
    rw [abs_of_nonneg (by linarith : (0:ℚ) ≤ h / 60 - 4 - 1)]
    rw [if_neg hn1, if_neg hn2, if_neg hn3, if_neg hn4, if_neg hn5,
      if_pos (⟨hh2a, hh2b⟩ : (5:ℚ) ≤ h / 60 ∧ h / 60 < 6)]
    simp only [Color.mk.injEq]
    refine ⟨by ring, by ring, by ring⟩
  have htmp0 : 0 < v * s * (6 - h / 60) := by nlinarith
  have htmp1 : v * s * (6 - h / 60) ≤ v * s := by nlinarith
  have hBA : v - v * s < v := by nlinarith
  have hCA : v * s * (6 - h / 60) + (v - v * s) ≤ v := by nlinarith
  have hBC : v - v * s < v * s * (6 - h / 60) + (v - v * s) := by nlinarith
  have hcmax : Color.cmax ⟨v, v - v * s, v * s * (6 - h / 60) + (v - v * s)⟩ = v := by
    simp only [Color.cmax, Color.cmax1, Color.red_mk, Color.green_mk, Color.blue_mk]
    split_ifs <;> linarith
  have hcmin : Color.cmin ⟨v, v - v * s, v * s * (6 - h / 60) + (v - v * s)⟩
      = v - v * s := by
    simp only [Color.cmin, Color.cmin1, Color.cmax1, Color.red_mk, Color.green_mk,
      Color.blue_mk]
    split_ifs <;> linarith
  have hdelta : Color.delta ⟨v, v - v * s, v * s * (6 - h / 60) + (v - v * s)⟩
      = v * s := by
    rw [Color.delta, hcmax, hcmin]
    ring
  rw [e, to_hsv_def, hcmax, hdelta]
  simp only [Color.red_mk, Color.green_mk, Color.blue_mk]
  rw [if_pos trivial, if_neg (ne_of_gt hv0)]
  simp only [Prod.mk.injEq]
  refine ⟨?_, ?_, trivial⟩
  · have hq : (v - v * s - (v * s * (6 - h / 60) + (v - v * s))) / (v * s)
        = h / 60 - 6 := by
      rw [div_eq_iff (ne_of_gt hc)]
      ring
    rw [hq, fmod_neg_self_eq (h / 60 - 6) 6 (by norm_num) (by linarith) (by linarith)]
    rw [mul_sub, mul_div_cancel₀]
    · norm_num
    · norm_num
  · rw [mul_comm v s, mul_div_assoc, div_self (ne_of_gt hv0), mul_one]

/-- C1 (amended): for hue in `[0,360)`, saturation in `(0,1]`, value in
`(0,1]` (excluding the achromatic singularity), the HSV→RGB→HSV round trip
recovers saturation and value within 3e-5 and recovers the hue within 3e-5
up to a multiple of 360: on `[0,300)` the hue is returned as is, while on
`[300,360)` (the sixth sector) it is returned as `hue - 360`. -/
theorem roundtrip_recovers (h s v : ℚ) (hh0 : 0 ≤ h) (hh1 : h < 360)
    (hs0 : 0 < s) (hs1 : s ≤ 1) (hv0 : 0 < v) (hv1 : v ≤ 1) :
    |((Color.hsv_to_rgb h s v).to_hsv).2.1 - s| ≤ 3/100000 ∧
    |((Color.hsv_to_rgb h s v).to_hsv).2.2 - v| ≤ 3/100000 ∧
    (|((Color.hsv_to_rgb h s v).to_hsv).1 - h| ≤ 3/100000 ∨
     |((Color.hsv_to_rgb h s v).to_hsv).1 - (h - 360)| ≤ 3/100000) := by
  have main : (Color.hsv_to_rgb h s v).to_hsv = (h, s, v) ∨
      (Color.hsv_to_rgb h s v).to_hsv = (h - 360, s, v) := by
    rcases lt_or_le h 60 with c1 | c1
    · exact Or.inl (rt_sector0 h s v hh0 c1 hs0 hs1 hv0 hv1)
    rcases lt_or_le h 120 with c2 | c2
    · exact Or.inl (rt_sector1 h s v c1 c2 hs0 hs1 hv0 hv1)
    rcases lt_or_le h 180 with c3 | c3
    · exact Or.inl (rt_sector2 h s v c2 c3 hs0 hs1 hv0 hv1)
    rcases lt_or_le h 240 with c4 | c4
    · exact Or.inl (rt_sector3 h s v c3 c4 hs0 hs1 hv0 hv1)
    rcases lt_or_le h 300 with c5 | c5
    · exact Or.inl (rt_sector4 h s v c4 c5 hs0 hs1 hv0 hv1)
    · exact Or.inr (rt_sector5 h s v c5 hh1 hs0 hs1 hv0 hv1)
  rcases main with hme | hme
  · rw [hme]
    refine ⟨by norm_num, by norm_num, Or.inl (by norm_num)⟩
  · rw [hme]
    refine ⟨by norm_num, by norm_num, Or.inr (by norm_num)⟩

/-- Witness for `roundtrip_recovers` at `(30, 1/2, 1/2)`. -/
theorem roundtrip_recovers_witness :
    (0:ℚ) ≤ 30 ∧ (30:ℚ) < 360 ∧ (0:ℚ) < 1/2 ∧ ((1:ℚ)/2) ≤ 1 ∧
    (|((Color.hsv_to_rgb 30 (1/2) (1/2)).to_hsv).2.1 - 1/2| ≤ 3/100000 ∧
     |((Color.hsv_to_rgb 30 (1/2) (1/2)).to_hsv).2.2 - 1/2| ≤ 3/100000 ∧
     (|((Color.hsv_to_rgb 30 (1/2) (1/2)).to_hsv).1 - 30| ≤ 3/100000 ∨
      |((Color.hsv_to_rgb 30 (1/2) (1/2)).to_hsv).1 - (30 - 360)| ≤ 3/100000)) :=
  ⟨by norm_num, by norm_num, by norm_num, by norm_num,
    roundtrip_recovers 30 (1/2) (1/2) (by norm_num) (by norm_num) (by norm_num)
      (by norm_num) (by norm_num) (by norm_num)⟩

/-- Counterexample to C1 as stated: at `(hue, sat, value) = (300, 1, 1)` —
inside the claimed domain and away from the achromatic singularity — the
round trip returns hue `-60`, which is not within 3e-5 of 300. -/
theorem roundtrip_hue_counterexample :
    (Color.hsv_to_rgb 300 1 1).to_hsv = (-60, 1, 1) ∧
    ¬ |((Color.hsv_to_rgb 300 1 1).to_hsv).1 - 300| ≤ 3/100000 := by
  have e : (Color.hsv_to_rgb 300 1 1).to_hsv = (-60, 1, 1) := by
    have h5 := rt_sector5 300 1 1 (by norm_num) (by norm_num) (by norm_num)
      (by norm_num) (by norm_num) (by norm_num)
    rw [h5]
    norm_num
  refine ⟨e, ?_⟩
  rw [e]
  norm_num
